import Mathlib

/-!
Shallow embedding of the hydra interpreter's built-in functions
(`src/interpreter_functions.cpp`), restricted to the parts the verified
claims are about: the two curve-building built-ins `curve_angle` and
`curve_distance`, the scope stack they drive, and the simple built-ins
`theta`, `random` and `set_resolution`.

Modelling conventions:
- C++ `double` arithmetic is modelled by exact rational arithmetic (`ℚ`);
  every claim about the floating-point code is stated "up to rounding", and
  the spec's claims are all of that kind.  The literal `M_PI` is modelled by
  the exact rational value of the IEEE-754 double `M_PI`.
- The scope stack (`System::state`) is implemented outside this translation
  unit; its operations are modelled from the spec (§4.1).
- The geometric primitives `Pol::translate_horizontally_by`,
  `Pol::distance_to` and `Pol::theta` live in `pol.hpp`, also outside the
  translation unit.  `rotate_by` has an exact contract in the spec
  (`phi += angle`) and is modelled from it; the others are abstract
  parameters of the embedding, so every theorem about them holds for any
  implementation.
- Argument interpretation (`interpret_arguments_from_function_call`
  followed by `number_value_for_parameter`) for the per-sample argument of
  a curve built-in is modelled as a single evaluator
  `ScopeStack → Option ℚ`: it observes the scope stack (where the hidden
  variable `_p` is bound) and either yields the evaluated number or fails.
- A handler returning `bool` with canvas/stack side effects is modelled as
  a pure function returning its `Except` outcome together with the
  resulting scope stack and canvas path list.
- The C++ sampling loops advance a `double` by a fixed step; on rationals
  this terminates because the step is strictly positive, a fact the code
  has established by the time the loop runs.  The loop translations
  therefore carry that positivity fact as an explicit hypothesis argument,
  which the embedding of the enclosing handler derives exactly where the
  C++ control flow guarantees it.
-/

namespace Hydra

/-- A polar coordinate, mirroring `Pol` from `pol.hpp`: a radius and an
angle in radians. -/
structure Pol where
  r : ℚ
  phi : ℚ
deriving DecidableEq

/-- Modelled from the spec (§4.3): `rotate_by(angle)` performs
`phi += angle`. (`pol.hpp` is not part of the given sources.) -/
def Pol.rotate_by (p : Pol) (angle : ℚ) : Pol :=
  ⟨p.r, p.phi + angle⟩

/-- The exact rational value of the IEEE-754 double constant `M_PI`. -/
def M_PI : ℚ := 884279719003555 / 281474976710656

/-- The dynamic `Value` type of the interpreter (spec §3): number, string,
boolean, or a structured record (the C++ `PropertyMap`, a mapping from
field name to value carrying a reserved type-tag field). -/
inductive Value where
  | num : ℚ → Value
  | str : String → Value
  | boolean : Bool → Value
  | record : List (String × Value) → Value

/-- Modelled from the spec (§3): the reserved type-tag field name
(`System::type_string`; its exact spelling is not in the given sources and
no claim depends on it). -/
def typeString : String := "type"

/-- The `PropertyMap` the curve built-ins bind to the hidden variable
`_p`: type tag "Pol" plus the numeric fields `r` and `phi`. -/
def polRecord (r phi : ℚ) : Value :=
  .record [(typeString, .str "Pol"), ("r", .num r), ("phi", .num phi)]

/-- A scope frame: a mapping from variable name to value
(modelled as an association list). -/
abbrev Frame := List (String × Value)

/-- The scope stack; head is the innermost live frame. -/
abbrev ScopeStack := List Frame

/-- Insert-or-overwrite a binding in a frame (C++ `map[name] = value`). -/
def frameSet (name : String) (v : Value) : Frame → Frame
  | [] => [(name, v)]
  | (n, w) :: rest =>
      if n = name then (n, v) :: rest else (n, w) :: frameSet name v rest

/-- Modelled from the spec (§4.1): `open_new_scope` pushes a new empty
frame; it has no failure mode. -/
def openNewScope (st : ScopeStack) : ScopeStack :=
  [] :: st

/-- Modelled from the spec (§4.1): `define_variable_with_value` creates a
binding in the innermost frame (overwriting a redefinition) and returns an
opaque frame identifier — here the index of that frame counted from the
root — for later direct updates. -/
def defineVariableWithValue (name : String) (v : Value) :
    ScopeStack → ℕ × ScopeStack
  | [] => (0, [[(name, v)]])
  | f :: rest => (rest.length, frameSet name v f :: rest)

/-- Replace the frame at position `i` from the top of the stack using `f`. -/
def modifyFrameAt (f : Frame → Frame) : ℕ → ScopeStack → ScopeStack
  | _, [] => []
  | 0, fr :: rest => f fr :: rest
  | n + 1, fr :: rest => fr :: modifyFrameAt f n rest

/-- Modelled from the spec (§4.1): `set_value_for_variable` updates an
existing binding in the identified frame directly, bypassing lexical
search; used exclusively for the hidden-variable rebind. -/
def setValueForVariable (name : String) (v : Value) (frameId : ℕ)
    (st : ScopeStack) : ScopeStack :=
  modifyFrameAt (frameSet name v) (st.length - 1 - frameId) st

/-- Modelled from the spec (§4.1): `close_scope` pops the innermost frame
and fails if only the root frame remains. -/
def closeScope : ScopeStack → Option ScopeStack
  | [] => none
  | [_] => none
  | _ :: rest => some rest

/-- A path: an ordered point sequence plus the closed/open flag, mirroring
`Path` with its `is_closed` member. -/
structure Path where
  points : List Pol
  is_closed : Bool

/-- The failure modes of the built-ins covered here (spec §7).
`ArgEvalError` stands for any failure propagated out of interpreting an
argument expression (the bare `return false` paths). -/
inductive CurveError where
  | InconsistentEndpoints
  | NonPositiveStep
  | ArgEvalError
  | CannotCloseRootScope
deriving DecidableEq

/-- The inner refinement loop of `curve_angle` (lines 291–299 of
`interpreter_functions.cpp`): starting from `additional_r`, push values and
advance by `additional_step_size` while strictly below
`radius + step_size`.  Positivity of the step (which holds at the call
site) is carried as a hypothesis so the recursion is well founded. -/
def additionalRadii (radius step_size additional_step_size : ℚ)
    (ha : 0 < additional_step_size) (additional_r : ℚ) : List ℚ :=
  if additional_r < radius + step_size then
    additional_r ::
      additionalRadii radius step_size additional_step_size ha
        (additional_r + additional_step_size)
  else []
termination_by
  (⌈(radius + step_size - additional_r) / additional_step_size⌉).toNat
decreasing_by
  have hx : (radius + step_size - (additional_r + additional_step_size)) /
      additional_step_size =
      (radius + step_size - additional_r) / additional_step_size - 1 := by
    field_simp
    ring
  have hpos : 0 < (radius + step_size - additional_r) /
      additional_step_size := div_pos (by linarith) ha
  have hceil := Int.ceil_pos.mpr hpos
  rw [hx, Int.ceil_sub_one]
  omega

/-- The radii-collection loop of `curve_angle` (lines 282–303): walk from
the current `radius` to `to.r` in `step_size` increments (inclusive bound),
inserting the finer sub-samples while below the detail `threshold`
(which the caller passes as `from.r + additional_detail_threshold`). -/
def curveAngleRadii (toR step_size threshold additional_step_size : ℚ)
    (hs : 0 < step_size) (ha : 0 < additional_step_size) (radius : ℚ) :
    List ℚ :=
  if radius ≤ toR then
    (radius ::
        (if radius < threshold then
          additionalRadii radius step_size additional_step_size ha
            (radius + additional_step_size)
        else [])) ++
      curveAngleRadii toR step_size threshold additional_step_size hs ha
        (radius + step_size)
  else []
termination_by (⌈(toR - radius) / step_size⌉ + 1).toNat
decreasing_by
  have hx : (toR - (radius + step_size)) / step_size =
      (toR - radius) / step_size - 1 := by
    field_simp
    ring
  have hnn : 0 ≤ (toR - radius) / step_size :=
    div_nonneg (by linarith) (le_of_lt hs)
  have hceil := Int.ceil_nonneg hnn
  rw [hx, Int.ceil_sub_one]
  omega

/-- The radii-collection loop of `curve_distance` (lines 481–484): walk
from `0` towards `translated_to.r` in `step_size` increments, strict
bound. -/
def curveDistanceRadii (bound step_size : ℚ) (hs : 0 < step_size)
    (radius : ℚ) : List ℚ :=
  if radius < bound then
    radius :: curveDistanceRadii bound step_size hs (radius + step_size)
  else []
termination_by (⌈(bound - radius) / step_size⌉).toNat
decreasing_by
  have hx : (bound - (radius + step_size)) / step_size =
      (bound - radius) / step_size - 1 := by
    field_simp
    ring
  have hpos : 0 < (bound - radius) / step_size :=
    div_pos (by linarith) hs
  have hceil := Int.ceil_pos.mpr hpos
  rw [hx, Int.ceil_sub_one]
  omega

/-- The endpoint "swap" of `curve_angle` (lines 211–215), translated
literally: `Pol temp = from; from = to; to = from;`.  After `from = to`,
the statement `to = from` copies the *new* `from` (the original `to`), so
both components of the result are the original `to`; `temp` is never read
again. -/
def curveAngleSwap (fromP toP : Pol) : Pol × Pol :=
  if fromP.r > toP.r then
    let _temp := fromP
    let from1 := toP
    let to1 := from1
    (from1, to1)
  else (fromP, toP)

/-- The per-sample loop of `curve_angle` (lines 305–340): for each radius,
rebind the hidden variable `_p` in its frame, evaluate the `angle`
argument against the updated scope stack, and append the point
`(r, from.phi + angle)`.  An evaluation failure returns immediately —
without closing the scope, exactly as the C++ `return false` does. -/
def curveAngleLoop (eval : ScopeStack → Option ℚ) (basePhi : ℚ)
    (scopeId : ℕ) :
    List ℚ → ScopeStack → List Pol →
      Except CurveError (List Pol) × ScopeStack
  | [], st, acc => (.ok acc, st)
  | r :: rest, st, acc =>
      let st1 := setValueForVariable "_p" (polRecord r basePhi) scopeId st
      match eval st1 with
      | none => (.error .ArgEvalError, st1)
      | some angle =>
          curveAngleLoop eval basePhi scopeId rest st1
            (acc ++ [⟨r, basePhi + angle⟩])

/-- `Interpreter::function_curve_angle` (lines 162–358), with the
endpoints `from`/`to` already evaluated, the `angle` argument abstracted
as `eval`, and the scope stack and the canvas path list threaded
explicitly.  Returns the outcome, the resulting scope stack, and the
resulting canvas.  The two `have`s establish, exactly where the C++
control flow guarantees them, the facts that make the sampling loop
well founded. -/
def curveAngle (fromP toP : Pol) (resolution : ℚ)
    (eval : ScopeStack → Option ℚ) (st : ScopeStack) (canvas : List Path) :
    Except CurveError Path × ScopeStack × List Path :=
  if fromP.phi ≠ toP.phi then (.error .InconsistentEndpoints, st, canvas)
  else
    let sw := curveAngleSwap fromP toP
    let step_size := (sw.2.r - sw.1.r) / resolution
    let additional_detail_threshold := 5 * step_size
    let additional_detail_points := resolution / 5
    let additional_step_size := step_size / additional_detail_points
    if h : step_size > 0 then
      have hle : sw.1.r ≤ sw.2.r := by
        show (curveAngleSwap fromP toP).1.r ≤ (curveAngleSwap fromP toP).2.r
        unfold curveAngleSwap
        split
        · exact le_refl _
        · exact le_of_not_lt (by assumption)
      have hres : 0 < resolution := by
        rcases lt_trichotomy resolution 0 with hneg | hzero | hpos
        · exfalso
          have : (sw.2.r - sw.1.r) / resolution ≤ 0 :=
            div_nonpos_iff.mpr (Or.inl ⟨by linarith, le_of_lt hneg⟩)
          exact absurd h (by simpa using this)
        · exfalso
          have : step_size = 0 := by
            show (sw.2.r - sw.1.r) / resolution = 0
            rw [hzero, div_zero]
          exact absurd h (by simp [this])
        · exact hpos
      have ha : 0 < additional_step_size :=
        div_pos h (div_pos hres (by norm_num))
      let st1 := openNewScope st
      let d := defineVariableWithValue "_p" (polRecord sw.1.r sw.1.phi) st1
      let radii := curveAngleRadii sw.2.r step_size
        (sw.1.r + additional_detail_threshold) additional_step_size h ha
        sw.1.r
      match curveAngleLoop eval sw.1.phi d.1 radii d.2 [] with
      | (.error e, st2) => (.error e, st2, canvas)
      | (.ok pts, st2) =>
          match closeScope st2 with
          | none => (.error .CannotCloseRootScope, st2, canvas)
          | some st3 => (.ok ⟨pts, false⟩, st3, canvas ++ [⟨pts, false⟩])
    else (.error .NonPositiveStep, st, canvas)

/-- The per-sample loop of `curve_distance` (lines 486–575): map the
reference-ray sample `(r, 0)` back through the inverse transform chain to
the on-segment point, rebind `_p` to it, evaluate the `distance` argument,
build the perpendicular offset point, translate it along the ray by `r`,
map it back through the same inverse chain, and append it. -/
def curveDistanceLoop (translateH : Pol → ℚ → Pol)
    (eval : ScopeStack → Option ℚ)
    (rotation_angle translation_distance second_rotation_angle : ℚ)
    (scopeId : ℕ) :
    List ℚ → ScopeStack → List Pol →
      Except CurveError (List Pol) × ScopeStack
  | [], st, acc => (.ok acc, st)
  | r :: rest, st, acc =>
      let current_helper_point : Pol := ⟨r, 0⟩
      let rotated_current_helper_point :=
        Pol.rotate_by ⟨current_helper_point.r, current_helper_point.phi⟩
          (-second_rotation_angle)
      let translated_current_helper_point :=
        translateH ⟨rotated_current_helper_point.r,
          rotated_current_helper_point.phi⟩ (-translation_distance)
      let current_helper_point_on_line :=
        Pol.rotate_by ⟨translated_current_helper_point.r,
          translated_current_helper_point.phi⟩ (-rotation_angle)
      let st1 := setValueForVariable "_p"
        (polRecord current_helper_point_on_line.r
          current_helper_point_on_line.phi) scopeId st
      match eval st1 with
      | none => (.error .ArgEvalError, st1)
      | some distance =>
          let resulting_radius := |distance|
          let resulting_angle :=
            if distance < 0 then 2 * M_PI - M_PI / 2 else M_PI / 2
          let resulting_point : Pol := ⟨resulting_radius, resulting_angle⟩
          let resulting_point1 := translateH resulting_point r
          let rotated_resulting_point :=
            Pol.rotate_by ⟨resulting_point1.r, resulting_point1.phi⟩
              (-second_rotation_angle)
          let translated_resulting_point :=
            translateH ⟨rotated_resulting_point.r,
              rotated_resulting_point.phi⟩ (-translation_distance)
          let final_resulting_point :=
            Pol.rotate_by ⟨translated_resulting_point.r,
              translated_resulting_point.phi⟩ (-rotation_angle)
          curveDistanceLoop translateH eval rotation_angle
            translation_distance second_rotation_angle scopeId rest st1
            (acc ++ [final_resulting_point])

/-- `Interpreter::function_curve_distance` (lines 360–593), with the
endpoints already evaluated, the `distance` argument abstracted as `eval`,
and the geometric primitives `translate_horizontally_by` / `distance_to`
(defined in `pol.hpp`, outside the given sources) abstracted as
`translateH` / `distTo`. -/
def curveDistance (translateH : Pol → ℚ → Pol) (distTo : Pol → Pol → ℚ)
    (fromP toP : Pol) (resolution : ℚ) (eval : ScopeStack → Option ℚ)
    (st : ScopeStack) (canvas : List Path) :
    Except CurveError Path × ScopeStack × List Path :=
  let step_size := distTo fromP toP / resolution
  if h : step_size > 0 then
    let st1 := openNewScope st
    let d := defineVariableWithValue "_p" (polRecord fromP.r fromP.phi) st1
    let rotation_angle := -fromP.phi
    let rotated_to := Pol.rotate_by ⟨toP.r, toP.phi⟩ rotation_angle
    let translation_distance := -fromP.r
    let translated_to :=
      translateH ⟨rotated_to.r, rotated_to.phi⟩ translation_distance
    let second_rotation_angle := -translated_to.phi
    let radii := curveDistanceRadii translated_to.r step_size h 0
    match curveDistanceLoop translateH eval rotation_angle
        translation_distance second_rotation_angle d.1 radii d.2 [] with
    | (.error e, st2) => (.error e, st2, canvas)
    | (.ok pts, st2) =>
        match closeScope st2 with
        | none => (.error .CannotCloseRootScope, st2, canvas)
        | some st3 => (.ok ⟨pts, false⟩, st3, canvas ++ [⟨pts, false⟩])
  else (.error .NonPositiveStep, st, canvas)

/-- Failure modes of `function_theta` (spec §7). -/
inductive ThetaError where
  | InvalidTriangle
  | NumericalFailure
deriving DecidableEq

/-- `Interpreter::function_theta` (lines 1171–1241), with the arguments
already evaluated and the geometric primitive `Pol::theta` (defined in
`pol.hpp`, outside the given sources) abstracted as `polTheta`.  The code
checks `r1 > R || r2 > R`, then `r1 + r2 < R` (both reported as an invalid
triangle), computes `Pol::theta`, and treats a negative result as the
numerical-failure sentinel. -/
def function_theta (polTheta : ℚ → ℚ → ℚ → ℚ) (r1 r2 R : ℚ) :
    Except ThetaError ℚ :=
  if r1 > R ∨ r2 > R then .error .InvalidTriangle
  else if r1 + r2 < R then .error .InvalidTriangle
  else
    let theta := polTheta r1 r2 R
    if theta < 0 then .error .NumericalFailure
    else .ok theta

/-- Failure mode of `function_random` (spec §7). -/
inductive RandomError where
  | InvalidRange
deriving DecidableEq

/-- `Interpreter::function_random` (lines 814–868), with the arguments
already evaluated and the draw from
`std::uniform_real_distribution(from, to)` abstracted as `draw` (random
number generation is an external collaborator; only its integration
contract — the drawn value lies in `[from, to]` — matters). -/
def function_random (draw : ℚ → ℚ → ℚ) (fromVal toVal : ℚ) :
    Except RandomError ℚ :=
  if toVal < fromVal then .error .InvalidRange
  else .ok (draw fromVal toVal)

/-- Failure mode of `function_set_resolution` (spec §7). -/
inductive ResolutionError where
  | InvalidResolution
deriving DecidableEq

/-- `Interpreter::function_set_resolution` (lines 1028–1070), with the
argument already evaluated and the canvas resolution threaded explicitly:
returns the outcome together with the resolution after the call. -/
def function_set_resolution (x : ℚ) (resolution : ℚ) :
    Except ResolutionError ℚ × ℚ :=
  if ¬(x > 0) then (.error .InvalidResolution, resolution)
  else (.ok x, x)

/-- Modelled from the spec (§4.4 step 4 of `curve_distance`): the inverse
transform chain — rotate by the negative of the second rotation angle,
translate horizontally by the negative of the translation distance, rotate
by the negative of the first rotation angle. -/
def invTransformChain (translateH : Pol → ℚ → Pol)
    (second_rotation_angle translation_distance rotation_angle : ℚ)
    (p : Pol) : Pol :=
  Pol.rotate_by
    (translateH (Pol.rotate_by p (-second_rotation_angle))
      (-translation_distance))
    (-rotation_angle)

/-- Modelled from the spec (§4.4 step 4 of `curve_distance`): the
perpendicular offset point `(|distance|, π/2)` for a nonnegative distance
and `(|distance|, 3π/2)` for a negative one. -/
def offsetPoint (distance : ℚ) : Pol :=
  if 0 ≤ distance then ⟨|distance|, M_PI / 2⟩
  else ⟨|distance|, 3 * M_PI / 2⟩

/-- Modelled from the spec: the on-segment point for ray position `r`,
obtained by applying the inverse transform chain to `(r, 0)`. -/
def onSegmentPoint (translateH : Pol → ℚ → Pol)
    (second_rotation_angle translation_distance rotation_angle : ℚ)
    (r : ℚ) : Pol :=
  invTransformChain translateH second_rotation_angle translation_distance
    rotation_angle ⟨r, 0⟩

/-- Modelled from the spec: the published path point for ray position `r`
and evaluated distance `d` — the offset point, translated horizontally by
`r`, mapped back through the inverse transform chain. -/
def curveDistanceSamplePoint (translateH : Pol → ℚ → Pol)
    (second_rotation_angle translation_distance rotation_angle : ℚ)
    (d r : ℚ) : Pol :=
  invTransformChain translateH second_rotation_angle translation_distance
    rotation_angle (translateH (offsetPoint d) r)

/-- The endpoint `translated_to` computed by `curve_distance`
(lines 459–468): `to` rotated by `-from.phi`, then translated
horizontally by `-from.r`. -/
def translatedTo (translateH : Pol → ℚ → Pol) (fromP toP : Pol) : Pol :=
  translateH (Pol.rotate_by ⟨toP.r, toP.phi⟩ (-fromP.phi)) (-fromP.r)

/-- Modelled from the spec (§4.4): the point sequence a successful
`curve_distance` call is expected to publish — for each sample position
`r` on the reference ray, the sample point built from the distance value
the `distance` expression takes when the hidden variable `_p` is bound
(in the dedicated frame sitting on top of the caller's stack `below`) to
the on-segment point for `r`. -/
def specCurveDistancePoints (translateH : Pol → ℚ → Pol)
    (distTo : Pol → Pol → ℚ) (g : ScopeStack → ℚ) (fromP toP : Pol)
    (resolution : ℚ) (hs : 0 < distTo fromP toP / resolution)
    (below : ScopeStack) : List Pol :=
  (curveDistanceRadii (translatedTo translateH fromP toP).r
      (distTo fromP toP / resolution) hs 0).map fun r =>
    curveDistanceSamplePoint translateH
      (-(translatedTo translateH fromP toP).phi) (-fromP.r) (-fromP.phi)
      (g ([("_p",
          polRecord
            (onSegmentPoint translateH
              (-(translatedTo translateH fromP toP).phi) (-fromP.r)
              (-fromP.phi) r).r
            (onSegmentPoint translateH
              (-(translatedTo translateH fromP toP).phi) (-fromP.r)
              (-fromP.phi) r).phi)] :: below))
      r

/-! ### Helper lemmas -/

/-- Structural case analysis for `curveAngle`: the call either succeeds
and appends exactly its path to the canvas, or fails and leaves the
canvas unchanged. -/
lemma curveAngle_canvas_cases (fromP toP : Pol) (resolution : ℚ)
    (eval : ScopeStack → Option ℚ) (st : ScopeStack) (canvas : List Path) :
    ((∃ e, (curveAngle fromP toP resolution eval st canvas).1 = .error e) ∧
        (curveAngle fromP toP resolution eval st canvas).2.2 = canvas) ∨
      (∃ path, (curveAngle fromP toP resolution eval st canvas).1 = .ok path ∧
        (curveAngle fromP toP resolution eval st canvas).2.2 =
          canvas ++ [path]) := by
  unfold curveAngle
  dsimp only
  split
  · exact Or.inl ⟨⟨_, rfl⟩, rfl⟩
  · split
    · split
      · exact Or.inl ⟨⟨_, rfl⟩, rfl⟩
      · split
        · exact Or.inl ⟨⟨_, rfl⟩, rfl⟩
        · exact Or.inr ⟨_, rfl, rfl⟩
    · exact Or.inl ⟨⟨_, rfl⟩, rfl⟩

/-- Structural case analysis for `curveDistance`: the call either
succeeds and appends exactly its path to the canvas, or fails and leaves
the canvas unchanged. -/
lemma curveDistance_canvas_cases (translateH : Pol → ℚ → Pol)
    (distTo : Pol → Pol → ℚ) (fromP toP : Pol) (resolution : ℚ)
    (eval : ScopeStack → Option ℚ) (st : ScopeStack) (canvas : List Path) :
    ((∃ e, (curveDistance translateH distTo fromP toP resolution eval st
          canvas).1 = .error e) ∧
        (curveDistance translateH distTo fromP toP resolution eval st
          canvas).2.2 = canvas) ∨
      (∃ path,
        (curveDistance translateH distTo fromP toP resolution eval st
          canvas).1 = .ok path ∧
        (curveDistance translateH distTo fromP toP resolution eval st
          canvas).2.2 = canvas ++ [path]) := by
  unfold curveDistance
  dsimp only
  split
  · split
    · exact Or.inl ⟨⟨_, rfl⟩, rfl⟩
    · split
      · exact Or.inl ⟨⟨_, rfl⟩, rfl⟩
      · exact Or.inr ⟨_, rfl, rfl⟩
  · exact Or.inl ⟨⟨_, rfl⟩, rfl⟩

/-- The sampling loop of `curve_angle` can only fail with an
argument-evaluation error. -/
lemma curveAngleLoop_error (eval : ScopeStack → Option ℚ) (basePhi : ℚ)
    (scopeId : ℕ) :
    ∀ (radii : List ℚ) (st : ScopeStack) (acc : List Pol) (e : CurveError),
      (curveAngleLoop eval basePhi scopeId radii st acc).1 = .error e →
        e = .ArgEvalError := by
  intro radii
  induction radii with
  | nil =>
      intro st acc e h
      simp [curveAngleLoop] at h
  | cons r rest ih =>
      intro st acc e h
      rw [curveAngleLoop] at h
      split at h
      · simp_all
      · exact ih _ _ e h

/-- The sampling loop of `curve_distance` can only fail with an
argument-evaluation error. -/
lemma curveDistanceLoop_error (translateH : Pol → ℚ → Pol)
    (eval : ScopeStack → Option ℚ)
    (rotation_angle translation_distance second_rotation_angle : ℚ)
    (scopeId : ℕ) :
    ∀ (radii : List ℚ) (st : ScopeStack) (acc : List Pol) (e : CurveError),
      (curveDistanceLoop translateH eval rotation_angle translation_distance
          second_rotation_angle scopeId radii st acc).1 = .error e →
        e = .ArgEvalError := by
  intro radii
  induction radii with
  | nil =>
      intro st acc e h
      simp [curveDistanceLoop] at h
  | cons r rest ih =>
      intro st acc e h
      rw [curveDistanceLoop] at h
      split at h
      · simp_all
      · exact ih _ _ e h

/-- Updating the innermost frame: with the frame identifier delivered by
`defineVariableWithValue` for the innermost frame, `setValueForVariable`
rewrites exactly that frame. -/
lemma setValue_top (name : String) (v : Value) (frm : Frame)
    (rest : ScopeStack) :
    setValueForVariable name v rest.length (frm :: rest) =
      frameSet name v frm :: rest := by
  unfold setValueForVariable
  have h : (frm :: rest).length - 1 - rest.length = 0 := by
    simp
  rw [h]
  rfl

/-- Rebinding the same variable twice in a frame keeps only the last
value. -/
lemma frameSet_frameSet (name : String) (v w : Value) :
    ∀ f : Frame, frameSet name v (frameSet name w f) = frameSet name v f := by
  intro f
  induction f with
  | nil => simp [frameSet]
  | cons p rest ih =>
      obtain ⟨n, x⟩ := p
      by_cases hn : n = name
      · simp [frameSet, hn]
      · simp [frameSet, hn, ih]

/-- One-step unfolding: the inner refinement loop while its guard holds. -/
lemma additionalRadii_pos {radius s a : ℚ} (ha : 0 < a) {c : ℚ}
    (h : c < radius + s) :
    additionalRadii radius s a ha c =
      c :: additionalRadii radius s a ha (c + a) := by
  rw [additionalRadii, if_pos h]

/-- One-step unfolding: the inner refinement loop once its guard fails. -/
lemma additionalRadii_neg {radius s a : ℚ} (ha : 0 < a) {c : ℚ}
    (h : ¬ c < radius + s) :
    additionalRadii radius s a ha c = [] := by
  rw [additionalRadii, if_neg h]

/-- One-step unfolding: the `curve_angle` radii loop while its guard
holds. -/
lemma curveAngleRadii_pos {toR s thr a : ℚ} (hs : 0 < s) (ha : 0 < a)
    {radius : ℚ} (h : radius ≤ toR) :
    curveAngleRadii toR s thr a hs ha radius =
      (radius ::
          (if radius < thr then additionalRadii radius s a ha (radius + a)
          else [])) ++
        curveAngleRadii toR s thr a hs ha (radius + s) := by
  rw [curveAngleRadii]
  rw [if_pos h]

/-- One-step unfolding: the `curve_angle` radii loop once its guard
fails. -/
lemma curveAngleRadii_neg {toR s thr a : ℚ} (hs : 0 < s) (ha : 0 < a)
    {radius : ℚ} (h : ¬ radius ≤ toR) :
    curveAngleRadii toR s thr a hs ha radius = [] := by
  rw [curveAngleRadii, if_neg h]

/-- One-step unfolding: the `curve_distance` radii loop while its guard
holds. -/
lemma curveDistanceRadii_pos {bound s : ℚ} (hs : 0 < s) {radius : ℚ}
    (h : radius < bound) :
    curveDistanceRadii bound s hs radius =
      radius :: curveDistanceRadii bound s hs (radius + s) := by
  rw [curveDistanceRadii]
  rw [if_pos h]

/-- One-step unfolding: the `curve_distance` radii loop once its guard
fails. -/
lemma curveDistanceRadii_neg {bound s : ℚ} (hs : 0 < s) {radius : ℚ}
    (h : ¬ radius < bound) :
    curveDistanceRadii bound s hs radius = [] := by
  rw [curveDistanceRadii, if_neg h]

/-- The `curve_angle` sampling loop with an `angle` expression that
evaluates to the constant `c`: every sample succeeds, the produced points
are `(r, basePhi + c)` in sample order, and the loop returns with the
stack's frames below the hidden-variable frame untouched. -/
lemma curveAngleLoop_const (c basePhi : ℚ) :
    ∀ (radii : List ℚ) (frm : Frame) (rest : ScopeStack) (acc : List Pol),
      curveAngleLoop (fun _ => some c) basePhi rest.length radii
          (frm :: rest) acc =
        (.ok (acc ++ radii.map fun r => (⟨r, basePhi + c⟩ : Pol)),
          (radii.foldl (fun f r => frameSet "_p" (polRecord r basePhi) f)
              frm) :: rest) := by
  intro radii
  induction radii with
  | nil =>
      intro frm rest acc
      simp [curveAngleLoop]
  | cons r rs ih =>
      intro frm rest acc
      rw [curveAngleLoop]
      dsimp only
      rw [setValue_top, ih]
      simp

/-- The `curve_angle` sampling loop with an `angle` expression whose
evaluation fails: the loop aborts on the first sample, after the hidden
variable was rebound, without unwinding the stack. -/
lemma curveAngleLoop_none (basePhi : ℚ) (scopeId : ℕ) (r : ℚ)
    (rs : List ℚ) (st : ScopeStack) (acc : List Pol) :
    curveAngleLoop (fun _ => none) basePhi scopeId (r :: rs) st acc =
      (.error .ArgEvalError,
        setValueForVariable "_p" (polRecord r basePhi) scopeId st) := by
  rw [curveAngleLoop]

/-- A successful `curve_angle` call whose `angle` expression evaluates to
the constant `c`: the call returns the path of points `(r, from.phi + c)`
over the sample radii, restores the scope stack exactly, and appends
precisely that path to the canvas. -/
lemma curveAngle_const_ok (fromP toP : Pol) (resolution c : ℚ)
    (frm0 : Frame) (rest0 : ScopeStack) (canvas : List Path)
    (pts : List Pol) (hphi : fromP.phi = toP.phi)
    (hs : 0 < ((curveAngleSwap fromP toP).2.r -
        (curveAngleSwap fromP toP).1.r) / resolution)
    (ha : 0 < ((curveAngleSwap fromP toP).2.r -
        (curveAngleSwap fromP toP).1.r) / resolution / (resolution / 5))
    (hpts : pts = (curveAngleRadii (curveAngleSwap fromP toP).2.r
        (((curveAngleSwap fromP toP).2.r -
          (curveAngleSwap fromP toP).1.r) / resolution)
        ((curveAngleSwap fromP toP).1.r +
          5 * (((curveAngleSwap fromP toP).2.r -
            (curveAngleSwap fromP toP).1.r) / resolution))
        (((curveAngleSwap fromP toP).2.r -
          (curveAngleSwap fromP toP).1.r) / resolution / (resolution / 5))
        hs ha (curveAngleSwap fromP toP).1.r).map
          fun r => (⟨r, (curveAngleSwap fromP toP).1.phi + c⟩ : Pol)) :
    curveAngle fromP toP resolution (fun _ => some c) (frm0 :: rest0)
        canvas =
      (.ok ⟨pts, false⟩, frm0 :: rest0, canvas ++ [⟨pts, false⟩]) := by
  subst hpts
  unfold curveAngle
  rw [if_neg (not_not_intro hphi)]
  dsimp only
  rw [dif_pos hs]
  simp only [openNewScope, defineVariableWithValue]
  rw [curveAngleLoop_const]
  dsimp only
  simp [closeScope]

/-- The concrete sample radii for `curve_angle(from=(1,0), to=(2,0))` with
resolution 1: step size 1, no sub-samples (the sub-sample step 5 exceeds
the step size), samples at radius 1 and 2. -/
lemma curveAngleRadii_unit (hs : (0 : ℚ) < 1) (ha : (0 : ℚ) < 5) :
    curveAngleRadii 2 1 6 5 hs ha 1 = [1, 2] := by
  rw [curveAngleRadii_pos hs ha (by norm_num : (1 : ℚ) ≤ 2)]
  rw [show (1 : ℚ) + 1 = 2 from by norm_num]
  rw [curveAngleRadii_pos hs ha (by norm_num : (2 : ℚ) ≤ 2)]
  rw [show (2 : ℚ) + 1 = 3 from by norm_num]
  rw [curveAngleRadii_neg hs ha (by norm_num : ¬(3 : ℚ) ≤ 2)]
  rw [additionalRadii_neg ha (by norm_num : ¬(1 : ℚ) + 5 < 1 + 1)]
  rw [additionalRadii_neg ha (by norm_num : ¬(2 : ℚ) + 5 < 2 + 1)]
  norm_num

/-- Every sub-sample lies in `[c, radius + step_size)` where `c` is the
sub-sampling start. -/
lemma additionalRadii_mem {radius s a : ℚ} (ha : 0 < a) :
    ∀ (c : ℚ), ∀ x ∈ additionalRadii radius s a ha c,
      c ≤ x ∧ x < radius + s := by
  intro c
  induction c using additionalRadii.induct radius s a ha with
  | case1 c h ih =>
      intro x hx
      rw [additionalRadii_pos ha h] at hx
      rcases List.mem_cons.mp hx with rfl | hx
      · exact ⟨le_refl x, h⟩
      · obtain ⟨h1, h2⟩ := ih x hx
        exact ⟨by linarith, h2⟩
  | case2 c h =>
      intro x hx
      rw [additionalRadii_neg ha h] at hx
      simp at hx

/-- The sub-samples are strictly increasing. -/
lemma additionalRadii_sorted {radius s a : ℚ} (ha : 0 < a) :
    ∀ (c : ℚ), List.Sorted (· < ·) (additionalRadii radius s a ha c) := by
  intro c
  induction c using additionalRadii.induct radius s a ha with
  | case1 c h ih =>
      rw [additionalRadii_pos ha h]
      refine List.sorted_cons.mpr ⟨?_, ih⟩
      intro b hb
      have := (additionalRadii_mem ha _ b hb).1
      linarith
  | case2 c h =>
      rw [additionalRadii_neg ha h]
      exact List.sorted_nil

/-- Every generated sample radius is at least the loop's current
radius. -/
lemma curveAngleRadii_lower {toR s thr a : ℚ} (hs : 0 < s) (ha : 0 < a) :
    ∀ (radius : ℚ), ∀ x ∈ curveAngleRadii toR s thr a hs ha radius,
      radius ≤ x := by
  intro radius
  induction radius using curveAngleRadii.induct toR s thr a hs ha with
  | case1 radius h ih =>
      intro x hx
      rw [curveAngleRadii_pos hs ha h] at hx
      rcases List.mem_append.mp hx with hx | hx
      · rcases List.mem_cons.mp hx with rfl | hx
        · exact le_refl x
        · by_cases hthr : radius < thr
          · rw [if_pos hthr] at hx
            have := (additionalRadii_mem ha _ x hx).1
            linarith
          · rw [if_neg hthr] at hx
            simp at hx
      · have := ih x hx
        linarith
  | case2 radius h =>
      intro x hx
      rw [curveAngleRadii_neg hs ha h] at hx
      simp at hx

/-- The generated sample radii are strictly increasing. -/
lemma curveAngleRadii_sorted {toR s thr a : ℚ} (hs : 0 < s) (ha : 0 < a) :
    ∀ (radius : ℚ),
      List.Sorted (· < ·) (curveAngleRadii toR s thr a hs ha radius) := by
  intro radius
  induction radius using curveAngleRadii.induct toR s thr a hs ha with
  | case1 radius h ih =>
      rw [curveAngleRadii_pos hs ha h]
      unfold List.Sorted
      rw [List.pairwise_append]
      refine ⟨?_, ih, ?_⟩
      · refine List.sorted_cons.mpr ⟨?_, ?_⟩
        · intro b hb
          by_cases hthr : radius < thr
          · rw [if_pos hthr] at hb
            have := (additionalRadii_mem ha _ b hb).1
            linarith
          · rw [if_neg hthr] at hb
            simp at hb
        · by_cases hthr : radius < thr
          · rw [if_pos hthr]
            exact additionalRadii_sorted ha _
          · rw [if_neg hthr]
            exact List.sorted_nil
      · intro x hx y hy
        have hy' : radius + s ≤ y := curveAngleRadii_lower hs ha _ y hy
        rcases List.mem_cons.mp hx with rfl | hx
        · linarith
        · by_cases hthr : radius < thr
          · rw [if_pos hthr] at hx
            have := (additionalRadii_mem ha _ x hx).2
            linarith
          · rw [if_neg hthr] at hx
            simp at hx
  | case2 radius h =>
      rw [curveAngleRadii_neg hs ha h]
      exact List.sorted_nil

/-- When the detail threshold is `base + 5 * step` and it does not exceed
`to.r`, every sample generated from a radius of the form
`base + k * step` stays at most `to.r`: main samples by the loop guard,
sub-samples because they only appear below the threshold, hence within
a step that ends at most at the threshold. -/
lemma curveAngleRadii_upper {toR s a base : ℚ} (hs : 0 < s) (ha : 0 < a)
    (hthr : base + 5 * s ≤ toR) :
    ∀ (radius : ℚ) (k : ℕ), radius = base + k * s →
      ∀ x ∈ curveAngleRadii toR s (base + 5 * s) a hs ha radius,
        x ≤ toR := by
  intro radius
  induction radius using curveAngleRadii.induct toR s (base + 5 * s) a hs
      ha with
  | case1 radius h ih =>
      intro k hk x hx
      rw [curveAngleRadii_pos hs ha h] at hx
      rcases List.mem_append.mp hx with hx | hx
      · rcases List.mem_cons.mp hx with rfl | hx
        · exact h
        · by_cases hlt : radius < base + 5 * s
          · rw [if_pos hlt] at hx
            have hmem := (additionalRadii_mem ha _ x hx).2
            have hk5 : (k : ℚ) * s < 5 * s := by
              rw [hk] at hlt
              linarith
            have hkq : (k : ℚ) < 5 := lt_of_mul_lt_mul_right
              (by linarith) hs.le
            have hk4 : k ≤ 4 := by
              have : k < 5 := by exact_mod_cast hkq
              omega
            have hstep : radius + s ≤ base + 5 * s := by
              rw [hk]
              have h4 : (k : ℚ) ≤ 4 := by exact_mod_cast hk4
              nlinarith
            linarith
          · rw [if_neg hlt] at hx
            simp at hx
      · refine ih (k + 1) ?_ x hx
        rw [hk]
        push_cast
        ring
  | case2 radius h =>
      intro k hk x hx
      rw [curveAngleRadii_neg hs ha h] at hx
      simp at hx

/-- When the sub-sample step is at least the step size, no sub-samples are
generated, so every sample is a main sample and stays at most `to.r`. -/
lemma curveAngleRadii_upper_nosub {toR s thr a : ℚ} (hs : 0 < s)
    (ha : 0 < a) (hsa : s ≤ a) :
    ∀ (radius : ℚ), ∀ x ∈ curveAngleRadii toR s thr a hs ha radius,
      x ≤ toR := by
  intro radius
  induction radius using curveAngleRadii.induct toR s thr a hs ha with
  | case1 radius h ih =>
      intro x hx
      rw [curveAngleRadii_pos hs ha h,
        additionalRadii_neg ha (by linarith : ¬ radius + a < radius + s),
        ite_self] at hx
      rcases List.mem_append.mp hx with hx | hx
      · rcases List.mem_cons.mp hx with rfl | hx
        · exact h
        · simp at hx
      · exact ih x hx
  | case2 radius h =>
      intro x hx
      rw [curveAngleRadii_neg hs ha h] at hx
      simp at hx

/-- At least `⌊(to.r - radius) / step⌋ + 1` samples are generated when the
loop is entered with `radius ≤ to.r`. -/
lemma curveAngleRadii_length {toR s thr a : ℚ} (hs : 0 < s) (ha : 0 < a) :
    ∀ (radius : ℚ), radius ≤ toR →
      (⌊(toR - radius) / s⌋).toNat + 1 ≤
        (curveAngleRadii toR s thr a hs ha radius).length := by
  intro radius
  induction radius using curveAngleRadii.induct toR s thr a hs ha with
  | case1 radius h ih =>
      intro _
      rw [curveAngleRadii_pos hs ha h]
      rw [List.length_append, List.length_cons]
      by_cases h2 : radius + s ≤ toR
      · have hIH := ih h2
        have hfl : ⌊(toR - radius) / s⌋ = ⌊(toR - (radius + s)) / s⌋ + 1 := by
          have hx : (toR - (radius + s)) / s = (toR - radius) / s - 1 := by
            field_simp
            ring
          rw [hx, Int.floor_sub_one]
          omega
        have hnn : 0 ≤ ⌊(toR - (radius + s)) / s⌋ :=
          Int.floor_nonneg.mpr (div_nonneg (by linarith) hs.le)
        omega
      · have hz : ⌊(toR - radius) / s⌋ = 0 := by
          rw [Int.floor_eq_zero_iff]
          constructor
          · exact div_nonneg (by linarith) hs.le
          · rw [div_lt_one hs]
            linarith
        omega
  | case2 radius h =>
      intro hle
      exact absurd hle h

/-- The first sample is the loop's starting radius. -/
lemma curveAngleRadii_head {toR s thr a : ℚ} (hs : 0 < s) (ha : 0 < a)
    (radius : ℚ) (h : radius ≤ toR) :
    (curveAngleRadii toR s thr a hs ha radius).head? = some radius := by
  rw [curveAngleRadii_pos hs ha h]
  simp

/-- The spec's offset point coincides with the code's construction
`(|d|, M_PI/2)` resp. `(|d|, 2*M_PI - M_PI/2)`: the two angle spellings
are the same rational. -/
lemma offsetPoint_eq (d : ℚ) :
    offsetPoint d =
      ⟨|d|, if d < 0 then 2 * M_PI - M_PI / 2 else M_PI / 2⟩ := by
  unfold offsetPoint
  by_cases h : 0 ≤ d
  · rw [if_pos h, if_neg (not_lt.mpr h)]
  · rw [if_neg h, if_pos (not_le.mp h)]
    congr 1
    ring

/-- The `curve_distance` sampling loop with a totally-evaluating
`distance` expression `g`: every sample succeeds; the produced point for
ray position `r` is the spec's sample point for the distance `g` observes
on the stack where `_p` is bound to the on-segment point for `r`; and the
frames below the hidden-variable frame are untouched. -/
lemma curveDistanceLoop_total (tH : Pol → ℚ → Pol) (g : ScopeStack → ℚ)
    (ra td sr : ℚ) :
    ∀ (radii : List ℚ) (frm : Frame) (rest : ScopeStack) (acc : List Pol),
      curveDistanceLoop tH (fun st => some (g st)) ra td sr rest.length
          radii (frm :: rest) acc =
        (.ok (acc ++ radii.map fun r =>
            curveDistanceSamplePoint tH sr td ra
              (g (frameSet "_p"
                  (polRecord (onSegmentPoint tH sr td ra r).r
                    (onSegmentPoint tH sr td ra r).phi) frm :: rest)) r),
          (radii.foldl (fun f r => frameSet "_p"
              (polRecord (onSegmentPoint tH sr td ra r).r
                (onSegmentPoint tH sr td ra r).phi) f) frm) :: rest) := by
  intro radii
  induction radii with
  | nil =>
      intro frm rest acc
      simp [curveDistanceLoop]
  | cons r rs ih =>
      intro frm rest acc
      rw [curveDistanceLoop]
      dsimp only
      rw [setValue_top, ih]
      simp only [curveDistanceSamplePoint, invTransformChain, onSegmentPoint,
        offsetPoint_eq, frameSet_frameSet, List.map_cons, List.foldl_cons,
        List.append_assoc, List.cons_append, List.nil_append]

/-- A successful `curve_distance` call with a totally-evaluating
`distance` expression: the call publishes exactly the spec's point
sequence and restores the scope stack. -/
lemma curveDistance_total_ok (tH : Pol → ℚ → Pol) (dT : Pol → Pol → ℚ)
    (fromP toP : Pol) (resolution : ℚ) (g : ScopeStack → ℚ) (frm0 : Frame)
    (rest0 : ScopeStack) (canvas : List Path)
    (hs : 0 < dT fromP toP / resolution) :
    curveDistance tH dT fromP toP resolution (fun st => some (g st))
        (frm0 :: rest0) canvas =
      (.ok ⟨specCurveDistancePoints tH dT g fromP toP resolution hs
          (frm0 :: rest0), false⟩,
        frm0 :: rest0,
        canvas ++ [⟨specCurveDistancePoints tH dT g fromP toP resolution hs
          (frm0 :: rest0), false⟩]) := by
  unfold curveDistance
  dsimp only
  rw [dif_pos hs]
  simp only [openNewScope, defineVariableWithValue]
  rw [curveDistanceLoop_total]
  dsimp only
  simp only [closeScope]
  unfold specCurveDistancePoints
  simp only [frameSet, eq_self_iff_true, if_true, List.nil_append]
  rfl

/-- Every `curve_distance` ray sample read off by position is an exact
multiple of the step size. -/
lemma curveDistanceRadii_get {bound s : ℚ} (hs : 0 < s) :
    ∀ (radius : ℚ) (i : ℕ) (x : ℚ),
      (curveDistanceRadii bound s hs radius)[i]? = some x →
        x = radius + i * s := by
  intro radius
  induction radius using curveDistanceRadii.induct bound s hs with
  | case1 radius h ih =>
      intro i x hx
      rw [curveDistanceRadii_pos hs h] at hx
      match i with
      | 0 =>
          rw [List.getElem?_cons_zero] at hx
          obtain rfl := Option.some.inj hx
          push_cast
          ring
      | i + 1 =>
          rw [List.getElem?_cons_succ] at hx
          have := ih i x hx
          rw [this]
          push_cast
          ring
  | case2 radius h =>
      intro i x hx
      rw [curveDistanceRadii_neg hs h] at hx
      simp at hx

/-- Every `curve_distance` ray sample is strictly below the translated
far endpoint's radius. -/
lemma curveDistanceRadii_lt {bound s : ℚ} (hs : 0 < s) :
    ∀ (radius : ℚ), ∀ x ∈ curveDistanceRadii bound s hs radius,
      x < bound := by
  intro radius
  induction radius using curveDistanceRadii.induct bound s hs with
  | case1 radius h ih =>
      intro x hx
      rw [curveDistanceRadii_pos hs h] at hx
      rcases List.mem_cons.mp hx with rfl | hx
      · exact h
      · exact ih x hx
  | case2 radius h =>
      intro x hx
      rw [curveDistanceRadii_neg hs h] at hx
      simp at hx

/-- When the `curve_distance` sampling loop succeeds it appends exactly
one point per sample. -/
lemma curveDistanceLoop_ok_length (tH : Pol → ℚ → Pol)
    (eval : ScopeStack → Option ℚ) (ra td sr : ℚ) (scopeId : ℕ) :
    ∀ (radii : List ℚ) (st : ScopeStack) (acc : List Pol) (pts : List Pol)
        (st2 : ScopeStack),
      curveDistanceLoop tH eval ra td sr scopeId radii st acc =
          (.ok pts, st2) →
        pts.length = acc.length + radii.length := by
  intro radii
  induction radii with
  | nil =>
      intro st acc pts st2 h
      simp [curveDistanceLoop] at h
      simp [← h.1]
  | cons r rs ih =>
      intro st acc pts st2 h
      rw [curveDistanceLoop] at h
      split at h
      · exact absurd h (by simp)
      · have := ih _ _ _ _ h
        simp at this
        simp [this]
        omega

/-- The concrete ray samples for bound 2 and step 1: positions 0 and 1. -/
lemma curveDistanceRadii_unit (hs : (0 : ℚ) < 1) :
    curveDistanceRadii 2 1 hs 0 = [0, 1] := by
  rw [curveDistanceRadii_pos hs (by norm_num : (0 : ℚ) < 2)]
  rw [show (0 : ℚ) + 1 = 1 from by norm_num]
  rw [curveDistanceRadii_pos hs (by norm_num : (1 : ℚ) < 2)]
  rw [show (1 : ℚ) + 1 = 2 from by norm_num]
  rw [curveDistanceRadii_neg hs (by norm_num : ¬(2 : ℚ) < 2)]

/-! ### Claim theorems -/

/-- C1 (refuting evaluation): when the `angle` argument fails to evaluate
inside the sampling loop — after the hidden-variable scope was opened —
`curve_angle` returns failure with the extra frame still on the stack:
the stack grows from one live frame to two and is left that way, so the
frame count is not restored on this failure path. -/
theorem curve_angle_scope_leak :
    curveAngle ⟨1, 0⟩ ⟨2, 0⟩ 1 (fun _ => none) [[]] [] =
        (.error .ArgEvalError, [[("_p", polRecord 1 0)], []], []) ∧
      ([[("_p", polRecord 1 0)], []] : ScopeStack).length ≠
        ([[]] : ScopeStack).length := by
  have hswap : curveAngleSwap ⟨1, 0⟩ ⟨2, 0⟩ = (⟨1, 0⟩, ⟨2, 0⟩) := by
    norm_num [curveAngleSwap]
  constructor
  · unfold curveAngle
    rw [if_neg (not_not_intro rfl)]
    dsimp only
    simp only [hswap]
    norm_num [openNewScope, defineVariableWithValue]
    rw [curveAngleRadii_unit]
    rw [curveAngleLoop_none]
    norm_num [setValueForVariable, modifyFrameAt, frameSet]
  · norm_num

/-- C2 (refuting evaluation): with `from.r > to.r` the in-place "swap"
(`temp = from; from = to; to = from;`) leaves both endpoints equal to the
original `to`, so the call fails with `NonPositiveStep` — while the call
with the endpoints already in increasing order succeeds and publishes its
path.  `curve_angle(from, to)` therefore does not behave like
`curve_angle(to, from)`. -/
theorem curve_angle_swap_bug :
    curveAngle ⟨2, 0⟩ ⟨1, 0⟩ 1 (fun _ => some 0) [[]] [] =
        (.error .NonPositiveStep, [[]], []) ∧
      ∃ path,
        curveAngle ⟨1, 0⟩ ⟨2, 0⟩ 1 (fun _ => some 0) [[]] [] =
          (.ok path, [[]], [path]) := by
  constructor
  · unfold curveAngle
    rw [if_neg (not_not_intro rfl)]
    dsimp only
    rw [dif_neg]
    norm_num [curveAngleSwap]
  · have h := curveAngle_const_ok ⟨1, 0⟩ ⟨2, 0⟩ 1 0 [] [] [] _ rfl
      (by norm_num [curveAngleSwap]) (by norm_num [curveAngleSwap]) rfl
    exact ⟨⟨_, false⟩, by simpa using h⟩

/-- C3: `curve_angle(from=(1,0), to=(2,0), angle=0)` with any positive
resolution `R` succeeds, restores the scope stack, and publishes an open
path all of whose points have `phi = 0`, whose radii start at 1, are
strictly increasing, never exceed 2 (exactly so in exact arithmetic), and
which contains at least `R` points (the main samples alone, before the
near-start refinement points, already reach that count). -/
theorem curve_angle_unit_segment (R : ℚ) (hR : 0 < R) (frm0 : Frame)
    (rest0 : ScopeStack) (canvas : List Path) :
    ∃ path,
      curveAngle ⟨1, 0⟩ ⟨2, 0⟩ R (fun _ => some 0) (frm0 :: rest0) canvas =
          (.ok path, frm0 :: rest0, canvas ++ [path]) ∧
        path.is_closed = false ∧
        (∀ p ∈ path.points, p.phi = 0) ∧
        (path.points.map Pol.r).head? = some 1 ∧
        List.Sorted (· < ·) (path.points.map Pol.r) ∧
        (∀ p ∈ path.points, 1 ≤ p.r ∧ p.r ≤ 2) ∧
        R ≤ (path.points.length : ℚ) := by
  have hswap : curveAngleSwap ⟨1, 0⟩ ⟨2, 0⟩ = (⟨1, 0⟩, ⟨2, 0⟩) := by
    norm_num [curveAngleSwap]
  have h1r : (curveAngleSwap ⟨1, 0⟩ ⟨2, 0⟩).1.r = 1 := by rw [hswap]
  have h2r : (curveAngleSwap ⟨1, 0⟩ ⟨2, 0⟩).2.r = 2 := by rw [hswap]
  have h1phi : (curveAngleSwap ⟨1, 0⟩ ⟨2, 0⟩).1.phi = 0 := by rw [hswap]
  have hs : 0 < ((curveAngleSwap ⟨1, 0⟩ ⟨2, 0⟩).2.r -
      (curveAngleSwap ⟨1, 0⟩ ⟨2, 0⟩).1.r) / R := by
    rw [h1r, h2r]
    norm_num
    exact hR
  have ha : 0 < ((curveAngleSwap ⟨1, 0⟩ ⟨2, 0⟩).2.r -
      (curveAngleSwap ⟨1, 0⟩ ⟨2, 0⟩).1.r) / R / (R / 5) :=
    div_pos hs (div_pos hR (by norm_num))
  have hmain := curveAngle_const_ok ⟨1, 0⟩ ⟨2, 0⟩ R 0 frm0 rest0 canvas _
    rfl hs ha rfl
  refine ⟨⟨_, false⟩, hmain, rfl, ?_, ?_, ?_, ?_, ?_⟩
  · intro p hp
    rw [List.mem_map] at hp
    obtain ⟨r, _, rfl⟩ := hp
    simp [h1phi]
  · have hmapr := List.map_map (g := Pol.r)
      (f := fun r : ℚ => (⟨r, (curveAngleSwap ⟨1, 0⟩ ⟨2, 0⟩).1.phi + 0⟩ : Pol))
    rw [hmapr]
    have : Pol.r ∘ (fun r : ℚ =>
        (⟨r, (curveAngleSwap ⟨1, 0⟩ ⟨2, 0⟩).1.phi + 0⟩ : Pol)) = id := by
      funext r
      rfl
    rw [this, List.map_id]
    rw [curveAngleRadii_head hs ha _ (by rw [h1r, h2r]; norm_num)]
    rw [h1r]
  · have hmapr := List.map_map (g := Pol.r)
      (f := fun r : ℚ => (⟨r, (curveAngleSwap ⟨1, 0⟩ ⟨2, 0⟩).1.phi + 0⟩ : Pol))
    rw [hmapr]
    have : Pol.r ∘ (fun r : ℚ =>
        (⟨r, (curveAngleSwap ⟨1, 0⟩ ⟨2, 0⟩).1.phi + 0⟩ : Pol)) = id := by
      funext r
      rfl
    rw [this, List.map_id]
    exact curveAngleRadii_sorted hs ha _
  · intro p hp
    rw [List.mem_map] at hp
    obtain ⟨r, hr, rfl⟩ := hp
    dsimp only
    constructor
    · have hlow := curveAngleRadii_lower hs ha _ r hr
      rwa [h1r] at hlow
    · by_cases h5 : 5 ≤ R
      · have hthr : (curveAngleSwap ⟨1, 0⟩ ⟨2, 0⟩).1.r +
            5 * (((curveAngleSwap ⟨1, 0⟩ ⟨2, 0⟩).2.r -
              (curveAngleSwap ⟨1, 0⟩ ⟨2, 0⟩).1.r) / R) ≤
            (curveAngleSwap ⟨1, 0⟩ ⟨2, 0⟩).2.r := by
          rw [h1r, h2r]
          have h5r : (5 : ℚ) * ((2 - 1) / R) = 5 / R := by ring
          rw [h5r]
          have : (5 : ℚ) / R ≤ 1 := (div_le_one hR).mpr h5
          linarith
        have hb := curveAngleRadii_upper hs ha hthr _ 0
          (by push_cast; ring) r hr
        rwa [h2r] at hb
      · have hR5 : R ≤ 5 := le_of_not_le h5
        have hsa : ((curveAngleSwap ⟨1, 0⟩ ⟨2, 0⟩).2.r -
            (curveAngleSwap ⟨1, 0⟩ ⟨2, 0⟩).1.r) / R ≤
            ((curveAngleSwap ⟨1, 0⟩ ⟨2, 0⟩).2.r -
              (curveAngleSwap ⟨1, 0⟩ ⟨2, 0⟩).1.r) / R / (R / 5) := by
          rw [h1r, h2r]
          rw [div_div_eq_mul_div]
          rw [le_div_iff₀ hR]
          exact mul_le_mul_of_nonneg_left hR5 (by positivity)
        have hb := curveAngleRadii_upper_nosub hs ha hsa _ r hr
        rwa [h2r] at hb
  · rw [List.length_map]
    have hle1 : (curveAngleSwap ⟨1, 0⟩ ⟨2, 0⟩).1.r ≤
        (curveAngleSwap ⟨1, 0⟩ ⟨2, 0⟩).2.r := by
      rw [h1r, h2r]
      norm_num
    have hfl := @curveAngleRadii_length
      ((curveAngleSwap ⟨1, 0⟩ ⟨2, 0⟩).2.r)
      (((curveAngleSwap ⟨1, 0⟩ ⟨2, 0⟩).2.r -
        (curveAngleSwap ⟨1, 0⟩ ⟨2, 0⟩).1.r) / R)
      ((curveAngleSwap ⟨1, 0⟩ ⟨2, 0⟩).1.r +
        5 * (((curveAngleSwap ⟨1, 0⟩ ⟨2, 0⟩).2.r -
          (curveAngleSwap ⟨1, 0⟩ ⟨2, 0⟩).1.r) / R))
      (((curveAngleSwap ⟨1, 0⟩ ⟨2, 0⟩).2.r -
        (curveAngleSwap ⟨1, 0⟩ ⟨2, 0⟩).1.r) / R / (R / 5))
      hs ha ((curveAngleSwap ⟨1, 0⟩ ⟨2, 0⟩).1.r) hle1
    have harg : ((curveAngleSwap ⟨1, 0⟩ ⟨2, 0⟩).2.r -
        (curveAngleSwap ⟨1, 0⟩ ⟨2, 0⟩).1.r) /
        (((curveAngleSwap ⟨1, 0⟩ ⟨2, 0⟩).2.r -
          (curveAngleSwap ⟨1, 0⟩ ⟨2, 0⟩).1.r) / R) = R := by
      rw [h1r, h2r]
      rw [show (2 : ℚ) - 1 = 1 from by norm_num]
      exact one_div_one_div R
    rw [harg] at hfl
    have h0 : 0 ≤ ⌊R⌋ := Int.floor_nonneg.mpr hR.le
    have hR1 : R < ⌊R⌋ + 1 := Int.lt_floor_add_one R
    have hcast : ((⌊R⌋.toNat + 1 : ℕ) : ℚ) ≤
        ((curveAngleRadii (curveAngleSwap ⟨1, 0⟩ ⟨2, 0⟩).2.r
          (((curveAngleSwap ⟨1, 0⟩ ⟨2, 0⟩).2.r -
            (curveAngleSwap ⟨1, 0⟩ ⟨2, 0⟩).1.r) / R)
          ((curveAngleSwap ⟨1, 0⟩ ⟨2, 0⟩).1.r +
            5 * (((curveAngleSwap ⟨1, 0⟩ ⟨2, 0⟩).2.r -
              (curveAngleSwap ⟨1, 0⟩ ⟨2, 0⟩).1.r) / R))
          (((curveAngleSwap ⟨1, 0⟩ ⟨2, 0⟩).2.r -
            (curveAngleSwap ⟨1, 0⟩ ⟨2, 0⟩).1.r) / R / (R / 5)) hs ha
          (curveAngleSwap ⟨1, 0⟩ ⟨2, 0⟩).1.r).length : ℚ) := by
      exact_mod_cast hfl
    have h2 : R ≤ ((⌊R⌋.toNat + 1 : ℕ) : ℚ) := by
      have heq : ((⌊R⌋.toNat : ℤ) : ℚ) = ((⌊R⌋ : ℤ) : ℚ) := by
        rw [Int.toNat_of_nonneg h0]
      push_cast at heq ⊢
      linarith
    linarith

/-- Witness for C3: the conclusion at resolution 1, starting from a
single root frame and an empty canvas. -/
theorem curve_angle_unit_segment_witness :
    (0 : ℚ) < 1 ∧
      ∃ path,
        curveAngle ⟨1, 0⟩ ⟨2, 0⟩ 1 (fun _ => some 0) [[]] [] =
            (.ok path, [[]], [] ++ [path]) ∧
          path.is_closed = false ∧
          (∀ p ∈ path.points, p.phi = 0) ∧
          (path.points.map Pol.r).head? = some 1 ∧
          List.Sorted (· < ·) (path.points.map Pol.r) ∧
          (∀ p ∈ path.points, 1 ≤ p.r ∧ p.r ≤ 2) ∧
          (1 : ℚ) ≤ (path.points.length : ℚ) :=
  ⟨by norm_num, curve_angle_unit_segment 1 (by norm_num) [] [] []⟩

/-- C4: `curve_angle` with `from.phi ≠ to.phi` fails with
`InconsistentEndpoints`, touching neither the scope stack nor the canvas;
and no curve-building call publishes a path to the canvas on any failure
path. -/
theorem curve_fail_publishes_nothing :
    (∀ (fromP toP : Pol) (resolution : ℚ) (eval : ScopeStack → Option ℚ)
        (st : ScopeStack) (canvas : List Path),
      fromP.phi ≠ toP.phi →
        curveAngle fromP toP resolution eval st canvas =
          (.error .InconsistentEndpoints, st, canvas)) ∧
    (∀ (fromP toP : Pol) (resolution : ℚ) (eval : ScopeStack → Option ℚ)
        (st : ScopeStack) (canvas : List Path) (e : CurveError),
      (curveAngle fromP toP resolution eval st canvas).1 = .error e →
        (curveAngle fromP toP resolution eval st canvas).2.2 = canvas) ∧
    (∀ (translateH : Pol → ℚ → Pol) (distTo : Pol → Pol → ℚ)
        (fromP toP : Pol) (resolution : ℚ) (eval : ScopeStack → Option ℚ)
        (st : ScopeStack) (canvas : List Path) (e : CurveError),
      (curveDistance translateH distTo fromP toP resolution eval st
          canvas).1 = .error e →
        (curveDistance translateH distTo fromP toP resolution eval st
          canvas).2.2 = canvas) := by
  refine ⟨?_, ?_, ?_⟩
  · intro fromP toP resolution eval st canvas h
    unfold curveAngle
    rw [if_pos h]
  · intro fromP toP resolution eval st canvas e h
    rcases curveAngle_canvas_cases fromP toP resolution eval st canvas with
      ⟨_, hc⟩ | ⟨path, hok, _⟩
    · exact hc
    · rw [hok] at h
      exact absurd h (by simp)
  · intro translateH distTo fromP toP resolution eval st canvas e h
    rcases curveDistance_canvas_cases translateH distTo fromP toP resolution
        eval st canvas with ⟨_, hc⟩ | ⟨path, hok, _⟩
    · exact hc
    · rw [hok] at h
      exact absurd h (by simp)

/-- Witness for C4: endpoints `(1, 0)` and `(1, 1)` have different angular
coordinates, so the call fails with `InconsistentEndpoints` and leaves
stack and canvas untouched. -/
theorem curve_fail_publishes_nothing_witness :
    curveAngle ⟨1, 0⟩ ⟨1, 1⟩ 10 (fun _ => some 0) [[]] [] =
      (.error .InconsistentEndpoints, [[]], []) :=
  curve_fail_publishes_nothing.1 ⟨1, 0⟩ ⟨1, 1⟩ 10 (fun _ => some 0) [[]] []
    (by norm_num)

/-- C5: with matching endpoint angles and a validated positive resolution,
`curve_angle` fails with `NonPositiveStep` exactly when
`(to.r - from.r) / resolution` (computed after the code's endpoint swap)
is not strictly positive, and `curve_distance` fails with
`NonPositiveStep` exactly when `from.distance_to(to) / resolution` is not
strictly positive; in both cases the failure leaves the scope stack and
canvas untouched and happens before any sampling-loop iteration (the
result does not depend on the per-sample evaluator). -/
theorem curve_step_guard :
    (∀ (fromP toP : Pol) (resolution : ℚ) (eval : ScopeStack → Option ℚ)
        (st : ScopeStack) (canvas : List Path),
      fromP.phi = toP.phi → 0 < resolution →
        ((curveAngle fromP toP resolution eval st canvas).1 =
            .error .NonPositiveStep ↔
          ((curveAngleSwap fromP toP).2.r - (curveAngleSwap fromP toP).1.r) /
              resolution ≤ 0) ∧
        (((curveAngleSwap fromP toP).2.r - (curveAngleSwap fromP toP).1.r) /
              resolution ≤ 0 →
          curveAngle fromP toP resolution eval st canvas =
            (.error .NonPositiveStep, st, canvas))) ∧
    (∀ (translateH : Pol → ℚ → Pol) (distTo : Pol → Pol → ℚ)
        (fromP toP : Pol) (resolution : ℚ) (eval : ScopeStack → Option ℚ)
        (st : ScopeStack) (canvas : List Path),
      0 < resolution →
        ((curveDistance translateH distTo fromP toP resolution eval st
              canvas).1 = .error .NonPositiveStep ↔
          distTo fromP toP / resolution ≤ 0) ∧
        (distTo fromP toP / resolution ≤ 0 →
          curveDistance translateH distTo fromP toP resolution eval st
              canvas = (.error .NonPositiveStep, st, canvas))) := by
  constructor
  · intro fromP toP resolution eval st canvas hphi _hres
    unfold curveAngle
    rw [if_neg (not_not_intro hphi)]
    dsimp only
    split
    · rename_i h
      constructor
      · constructor
        · intro hcontra
          exfalso
          split at hcontra
          · rename_i e st2 heq
            have he := curveAngleLoop_error eval _ _ _ _ _ e (by rw [heq])
            simp_all
          · split at hcontra <;> simp_all
        · intro hle
          exfalso
          linarith
      · intro hle
        exfalso
        linarith
    · rename_i h
      exact ⟨⟨fun _ => not_lt.mp h, fun _ => rfl⟩, fun _ => rfl⟩
  · intro translateH distTo fromP toP resolution eval st canvas _hres
    unfold curveDistance
    dsimp only
    split
    · rename_i h
      constructor
      · constructor
        · intro hcontra
          exfalso
          split at hcontra
          · rename_i e st2 heq
            have he := curveDistanceLoop_error translateH eval _ _ _ _ _ _ _
              e (by rw [heq])
            simp_all
          · split at hcontra <;> simp_all
        · intro hle
          exfalso
          linarith
      · intro hle
        exfalso
        linarith
    · rename_i h
      exact ⟨⟨fun _ => not_lt.mp h, fun _ => rfl⟩, fun _ => rfl⟩

/-- Witness for C5: coinciding endpoints give a zero step size and an
immediate `NonPositiveStep` failure with untouched state, for both curve
built-ins. -/
theorem curve_step_guard_witness :
    curveAngle ⟨1, 0⟩ ⟨1, 0⟩ 1 (fun _ => none) [[]] [] =
        (.error .NonPositiveStep, [[]], []) ∧
      curveDistance (fun p _ => p) (fun _ _ => 0) ⟨1, 0⟩ ⟨2, 0⟩ 1
          (fun _ => none) [[]] [] = (.error .NonPositiveStep, [[]], []) :=
  ⟨(curve_step_guard.1 ⟨1, 0⟩ ⟨1, 0⟩ 1 (fun _ => none) [[]] [] rfl
        (by norm_num)).2 (by norm_num [curveAngleSwap]),
    (curve_step_guard.2 (fun p _ => p) (fun _ _ => 0) ⟨1, 0⟩ ⟨2, 0⟩ 1
        (fun _ => none) [[]] [] (by norm_num)).2 (by norm_num)⟩

/-- C6: for a `curve_distance` call whose `distance` expression evaluates
(to `g` of the current scope stack), the published path consists, for each
ray sample `r`, of exactly the spec's point: the offset point
`(|d|, π/2)` for `d ≥ 0` resp. `(|d|, 3π/2)` for `d < 0`, translated
horizontally by `r`, then mapped through the inverse transform chain
(rotate by the negative of the second rotation angle, translate by the
negative of the translation distance, rotate by the negative of the first
rotation angle); and the distance `d` used for sample `r` is what the
expression evaluates to when `_p` is bound to the same inverse chain
applied to `(r, 0)` — all of which is packaged in
`specCurveDistancePoints`, `curveDistanceSamplePoint` and
`onSegmentPoint`. -/
theorem curve_distance_inverse_chain (translateH : Pol → ℚ → Pol)
    (distTo : Pol → Pol → ℚ) (fromP toP : Pol) (resolution : ℚ)
    (g : ScopeStack → ℚ) (frm0 : Frame) (rest0 : ScopeStack)
    (canvas : List Path) (hs : 0 < distTo fromP toP / resolution) :
    curveDistance translateH distTo fromP toP resolution
        (fun st => some (g st)) (frm0 :: rest0) canvas =
      (.ok ⟨specCurveDistancePoints translateH distTo g fromP toP resolution
          hs (frm0 :: rest0), false⟩,
        frm0 :: rest0,
        canvas ++ [⟨specCurveDistancePoints translateH distTo g fromP toP
          resolution hs (frm0 :: rest0), false⟩]) :=
  curveDistance_total_ok translateH distTo fromP toP resolution g frm0
    rest0 canvas hs

/-- Witness for C6: a concrete instantiation with the Euclidean-like
translation `(r, phi) ↦ (r + d, phi)`, a constant unit distance between
the endpoints, and the constant distance expression 0. -/
theorem curve_distance_inverse_chain_witness :
    ∃ hs : (0 : ℚ) < (fun (_ _ : Pol) => (2 : ℚ)) ⟨0, 0⟩ ⟨2, 0⟩ / 1,
      curveDistance (fun p d => ⟨p.r + d, p.phi⟩) (fun _ _ => 2) ⟨0, 0⟩
          ⟨2, 0⟩ 1 (fun st => some ((fun _ => (0 : ℚ)) st)) [[]] [] =
        (.ok ⟨specCurveDistancePoints (fun p d => ⟨p.r + d, p.phi⟩)
            (fun _ _ => 2) (fun _ => 0) ⟨0, 0⟩ ⟨2, 0⟩ 1 hs [[]], false⟩,
          [[]],
          [] ++ [⟨specCurveDistancePoints (fun p d => ⟨p.r + d, p.phi⟩)
            (fun _ _ => 2) (fun _ => 0) ⟨0, 0⟩ ⟨2, 0⟩ 1 hs [[]], false⟩]) :=
  ⟨by norm_num,
    curve_distance_inverse_chain (fun p d => ⟨p.r + d, p.phi⟩)
      (fun _ _ => 2) ⟨0, 0⟩ ⟨2, 0⟩ 1 (fun _ => 0) [] [] [] (by norm_num)⟩

/-- C10: the `curve_distance` ray samples are `0, step, 2·step, …`, all
strictly below `translated_to.r` (the loop bound is strict), and a
successful call publishes exactly one point per sample — so no published
point is generated from the far endpoint itself. -/
theorem curve_distance_strict_sampling :
    (∀ (bound s : ℚ) (hs : 0 < s) (i : ℕ) (x : ℚ),
        (curveDistanceRadii bound s hs 0)[i]? = some x →
          x = i * s ∧ x < bound) ∧
    (∀ (translateH : Pol → ℚ → Pol) (distTo : Pol → Pol → ℚ)
        (fromP toP : Pol) (resolution : ℚ) (eval : ScopeStack → Option ℚ)
        (st : ScopeStack) (canvas cv : List Path) (path : Path)
        (st' : ScopeStack),
      curveDistance translateH distTo fromP toP resolution eval st canvas =
          (.ok path, st', cv) →
        ∀ hs : 0 < distTo fromP toP / resolution,
          path.points.length =
            (curveDistanceRadii (translatedTo translateH fromP toP).r
              (distTo fromP toP / resolution) hs 0).length) := by
  constructor
  · intro bound s hs i x hx
    refine ⟨?_, ?_⟩
    · have hget := curveDistanceRadii_get hs 0 i x hx
      rw [hget]
      ring
    · exact curveDistanceRadii_lt hs 0 x (List.getElem?_mem hx)
  · intro tH dT fromP toP res eval st canvas cv path st' h hs
    unfold curveDistance at h
    dsimp only at h
    rw [dif_pos hs] at h
    split at h
    · simp at h
    · rename_i pts st2 heq
      split at h
      · simp at h
      · simp only [Prod.mk.injEq, Except.ok.injEq] at h
        obtain ⟨h1, _, _⟩ := h
        subst h1
        have hlen := curveDistanceLoop_ok_length tH eval _ _ _ _ _ _ _ _ _
          heq
        simpa using hlen

/-- Witness for C10: the first ray sample for bound 2 and step 1 is the
exact multiple `0 · 1` and lies strictly below the bound. -/
theorem curve_distance_strict_sampling_witness :
    (0 : ℚ) = ((0 : ℕ) : ℚ) * 1 ∧ (0 : ℚ) < 2 := by
  have hs : (0 : ℚ) < 1 := by norm_num
  exact curve_distance_strict_sampling.1 2 1 hs 0 0
    (by rw [curveDistanceRadii_unit hs]; rfl)

/-- C7: the `theta` built-in fails with `InvalidTriangle` when `r1 > R` or
`r2 > R` or `r1 + r2 < R`; when those checks pass it fails with
`NumericalFailure` exactly when the geometric primitive `Pol::theta`
returns a negative value, and otherwise returns that non-negative value. -/
theorem theta_builtin_spec (polTheta : ℚ → ℚ → ℚ → ℚ) (r1 r2 R : ℚ) :
    ((r1 > R ∨ r2 > R ∨ r1 + r2 < R) →
      function_theta polTheta r1 r2 R = .error .InvalidTriangle) ∧
    (r1 ≤ R → r2 ≤ R → R ≤ r1 + r2 →
      (function_theta polTheta r1 r2 R = .error .NumericalFailure ↔
          polTheta r1 r2 R < 0) ∧
        (0 ≤ polTheta r1 r2 R →
          function_theta polTheta r1 r2 R = .ok (polTheta r1 r2 R))) := by
  constructor
  · intro h
    unfold function_theta
    split_ifs with h1 h2
    · rfl
    · rfl
    · exfalso
      rcases h with h | h | h
      · exact h1 (Or.inl h)
      · exact h1 (Or.inr h)
      · exact h2 h
  · intro h1 h2 h3
    unfold function_theta
    rw [if_neg (by push_neg; exact ⟨h1, h2⟩), if_neg (not_lt.mpr h3)]
    constructor
    · by_cases ht : polTheta r1 r2 R < 0
      · simp [ht]
      · simp [ht]
    · intro hnn
      simp [not_lt.mpr hnn]

/-- Witness for C7: with an (abstract) primitive returning 1, the call
`theta(2, 1, 1)` violates `r1 ≤ R` and fails with `InvalidTriangle`. -/
theorem theta_builtin_spec_witness :
    ((2 : ℚ) > 1 ∨ (1 : ℚ) > 1 ∨ (2 : ℚ) + 1 < 1) ∧
      function_theta (fun _ _ _ => 1) 2 1 1 = .error .InvalidTriangle :=
  ⟨Or.inl (by norm_num),
    (theta_builtin_spec (fun _ _ _ => 1) 2 1 1).1 (Or.inl (by norm_num))⟩

/-- C8: the `random` built-in fails with `InvalidRange` exactly when
`to < from`; when `from ≤ to` it returns the drawn value, which lies in
`[from, to]` by the distribution's contract; in particular
`random(2, 2)` returns exactly 2. -/
theorem random_builtin_spec (draw : ℚ → ℚ → ℚ)
    (hdraw : ∀ a b : ℚ, a ≤ b → a ≤ draw a b ∧ draw a b ≤ b)
    (fromVal toVal : ℚ) :
    (function_random draw fromVal toVal = .error .InvalidRange ↔
        toVal < fromVal) ∧
    (fromVal ≤ toVal →
      function_random draw fromVal toVal = .ok (draw fromVal toVal) ∧
        fromVal ≤ draw fromVal toVal ∧ draw fromVal toVal ≤ toVal) ∧
    function_random draw 2 2 = .ok 2 := by
  refine ⟨?_, ?_, ?_⟩
  · unfold function_random
    split_ifs with h
    · simp [h]
    · simp [h]
  · intro h
    unfold function_random
    rw [if_neg (not_lt.mpr h)]
    exact ⟨rfl, hdraw fromVal toVal h⟩
  · have h22 := hdraw 2 2 (le_refl 2)
    have : draw 2 2 = 2 := le_antisymm h22.2 h22.1
    unfold function_random
    rw [if_neg (lt_irrefl 2), this]

/-- Witness for C8: with the draw `fun a _ => a` (which satisfies the
range contract), `random(5, 2)` fails with `InvalidRange` and
`random(2, 2)` returns exactly 2. -/
theorem random_builtin_spec_witness :
    function_random (fun a _ => a) 5 2 = .error .InvalidRange ∧
      function_random (fun a _ => a) 2 2 = .ok 2 :=
  ⟨(random_builtin_spec (fun a _ => a)
        (fun a _ h => ⟨le_refl a, h⟩) 5 2).1.mpr (by norm_num),
    (random_builtin_spec (fun a _ => a)
        (fun a _ h => ⟨le_refl a, h⟩) 5 2).2.2⟩

/-- C9: `set_resolution(x)` fails with `InvalidResolution` exactly when
`x ≤ 0`, in which case the canvas resolution keeps its prior value; when
`x > 0` the canvas resolution becomes `x`. -/
theorem set_resolution_spec (x res : ℚ) :
    ((function_set_resolution x res).1 = .error .InvalidResolution ↔
        x ≤ 0) ∧
    (x ≤ 0 → function_set_resolution x res = (.error .InvalidResolution, res)) ∧
    (0 < x → function_set_resolution x res = (.ok x, x)) := by
  unfold function_set_resolution
  by_cases h : x > 0
  · rw [if_neg (by simpa using h)]
    refine ⟨by simp [not_le.mpr h], fun hle => absurd h (not_lt.mpr hle),
      fun _ => rfl⟩
  · rw [if_pos (by simpa using h)]
    exact ⟨by simpa using not_lt.mp h, fun _ => rfl,
      fun hpos => absurd hpos h⟩

/-- Witness for C9: `set_resolution(-1)` with prior resolution 7 fails and
keeps 7; `set_resolution(2)` succeeds and sets 2. -/
theorem set_resolution_spec_witness :
    function_set_resolution (-1) 7 = (.error .InvalidResolution, 7) ∧
      function_set_resolution 2 7 = (.ok 2, 2) :=
  ⟨(set_resolution_spec (-1) 7).2.1 (by norm_num),
    (set_resolution_spec 2 7).2.2 (by norm_num)⟩

end Hydra
